import Mathlib

/-!
Shallow embedding of the `jsonhandlerfunc` package (handler construction and
per-request pipeline) and proofs about it.

The Go source converts an arbitrary Go function into an `http.HandlerFunc`
that decodes a JSON `{"params": [...]}` body into the function's parameters,
invokes it, and encodes its return values as `{"results": [...]}` with the
trailing error specially wrapped.  Functions are inspected through `reflect`;
we model the fragment of Go's type and value universe that the package
manipulates, and mirror each source function (`check`, `isInjector`,
`typesAssignableTo`, `checkInjectorsType`, `returnVals`, `returnError`,
`injectedParams`, `ToHandlerFunc` and its request-serving closure) by a Lean
definition of the same name.  Go panics are modelled as `Except.error` at
construction time and as `Option.none` at request time.
-/

namespace JsonHandlerFunc

/-- The fragment of Go's type universe used by the package: parameter and
return types of targets and injectors.  `tIfaceEmpty` is `interface{}`,
`tError` the `error` interface, `tResponseWriter` is `http.ResponseWriter`,
`tRequestPtr` is `*http.Request`, `tNamed` an opaque named struct type,
`tChan` a channel type (rejected by the shape check). -/
inductive GoType where
  | tString
  | tInt
  | tBool
  | tFloat64
  | tError
  | tContext
  | tIfaceEmpty
  | tResponseWriter
  | tRequestPtr
  | tNamed (name : String)
  | tPtr (elem : GoType)
  | tChan
  deriving DecidableEq, Repr

/-- Models `t.Implements(errorInterface)`: in the modelled universe only the `error`
interface type itself implements `error`. -/
def implementsError (t : GoType) : Bool := t == GoType.tError

/-- Models `t.Implements(contextType)`: in the modelled universe only
`context.Context` itself implements `context.Context`. -/
def implementsContext (t : GoType) : Bool := t == GoType.tContext

/-- Go assignability (`from.AssignableTo(to)`) restricted to the modelled
universe: identical types are assignable, and every type is assignable to
`interface{}`.  The interface types `error`, `context.Context` and
`http.ResponseWriter` have no other implementors among the modelled types. -/
def assignableTo (tfrom tto : GoType) : Bool :=
  tfrom == tto || tto == GoType.tIfaceEmpty

/-- Rendering of a type as Go's `%+v` of a `reflect.Type` prints it. -/
def showGoType : GoType → String
  | GoType.tString => "string"
  | GoType.tInt => "int"
  | GoType.tBool => "bool"
  | GoType.tFloat64 => "float64"
  | GoType.tError => "error"
  | GoType.tContext => "context.Context"
  | GoType.tIfaceEmpty => "interface \x7b\x7d"
  | GoType.tResponseWriter => "http.ResponseWriter"
  | GoType.tRequestPtr => "*http.Request"
  | GoType.tNamed n => n
  | GoType.tPtr e => "*" ++ showGoType e
  | GoType.tChan => "chan"

/-- Rendering via `%+v` of a `[]reflect.Type`: space-separated inside brackets. -/
def showTypeList (ts : List GoType) : String :=
  "[" ++ String.intercalate " " (ts.map showGoType) ++ "]"

/-- Rendering via `%+v` of a func `reflect.Type`. -/
def showFuncType (ins outs : List GoType) : String :=
  let outsStr :=
    match outs with
    | [t] => " " ++ showGoType t
    | [] => ""
    | _ => " (" ++ String.intercalate ", " (outs.map showGoType) ++ ")"
  "func(" ++ String.intercalate ", " (ins.map showGoType) ++ ")" ++ outsStr

/-- A non-nil Go `error` value as the package distinguishes them:
`basic` is an ordinary error, `withCode` an error whose dynamic type has a
`StatusCode() int` method, `wrapped` is the package's own
`*errorWithStatusCode` built by `NewStatusCodeError`. -/
inductive GoError where
  | basic (msg : String)
  | withCode (code : Int) (msg : String)
  | wrapped (code : Int) (inner : GoError)
  deriving DecidableEq, Repr

/-- Models `err.Error()`.  `(*errorWithStatusCode).Error` formats as
`fmt.Sprintf("%d: %s", e.HTTPStatusCode, e.innerErr)`. -/
def errMsg : GoError → String
  | GoError.basic m => m
  | GoError.withCode _ m => m
  | GoError.wrapped c inner => toString c ++ ": " ++ errMsg inner

/-- The `StatusCodeError` capability check (`last.(StatusCodeError)`):
`some c` when the dynamic type has a `StatusCode() int` method returning `c`. -/
def statusCodeOf : GoError → Option Int
  | GoError.basic _ => none
  | GoError.withCode c _ => some c
  | GoError.wrapped c _ => some c

/-- The `*errorWithStatusCode` unwrap step in `returnVals`:
`if codeWithErr, ok := last.(*errorWithStatusCode); ok { err = codeWithErr.innerErr }`. -/
def unwrapOnce : GoError → GoError
  | GoError.wrapped _ inner => inner
  | e => e

/-- Models `NewStatusCodeError(code, innerError)`: builds a `*errorWithStatusCode`. -/
def NewStatusCodeError (code : Int) (innerError : GoError) : GoError :=
  GoError.wrapped code innerError

/-- Go runtime values flowing through the handler.  `vError none` is a nil
`error` interface value; `vPtrNil` a nil pointer; `vPtr v` a non-nil pointer
to `v`; `vOpaque t tag` an otherwise uninterpreted value of type `t`
(structs, generic JSON, ...). -/
inductive GoVal where
  | vString (s : String)
  | vInt (n : Int)
  | vBool (b : Bool)
  | vError (e : Option GoError)
  | vPtrNil
  | vPtr (pointee : GoVal)
  | vCtx
  | vOpaque (t : GoType) (tag : String)
  deriving DecidableEq, Repr

/-- Models `reflect.Zero(t).Interface()`. -/
def zeroVal : GoType → GoVal
  | GoType.tString => GoVal.vString ""
  | GoType.tInt => GoVal.vInt 0
  | GoType.tBool => GoVal.vBool false
  | GoType.tError => GoVal.vError none
  | GoType.tPtr _ => GoVal.vPtrNil
  | t => GoVal.vOpaque t "zero"

/-- JSON values appearing as elements of the request's `params` array.
Compound objects and arrays are kept opaque (`jobjTag`/`jarrTag`): the
package hands them to `encoding/json` for type-directed decoding which we
abstract. -/
inductive JVal where
  | jnull
  | jbool (b : Bool)
  | jint (n : Int)
  | jstr (s : String)
  | jobjTag (tag : String)
  | jarrTag (tag : String)
  deriving DecidableEq, Repr

/-- The request body as the `json.Decoder` sees it: absent/empty (decoding
yields EOF), malformed JSON, or a well-formed `{"params": [...]}` object. -/
inductive Body where
  | empty
  | malformed
  | paramsArr (elems : List JVal)
  deriving DecidableEq, Repr

/-- The incoming `*http.Request` as far as the package reads it. -/
structure Request where
  body : Body
  deriving DecidableEq, Repr

/-- Models `Config` with its optional error-translation hook
(`ErrHandler func(oldErr error) (newErr error)`), modelled as a total
function on non-nil errors. -/
structure Config where
  ErrHandler : Option (GoError → GoError)

/-- Models `if cfg.ErrHandler != nil { err = cfg.ErrHandler(err) }`. -/
def applyErrHandler (cfg : Config) (e : GoError) : GoError :=
  match cfg.ErrHandler with
  | some h => h e
  | none => e

/-- An element of the `outs []interface{}` slice that gets JSON-encoded as
the `results` array: a plain return value, the JSON `null` appended on
success, or a `*ResponseError{Error: msg, Value: err}` envelope. -/
inductive Out where
  | ov (v : GoVal)
  | onull
  | envlp (errorField : String) (value : GoError)
  deriving DecidableEq, Repr

/-- The four results of `Config.returnVals`. -/
structure RVals where
  httpCode : Int
  outs : List Out
  normalVals : List GoVal
  err : Option GoError
  deriving DecidableEq, Repr

/-- Models `Config.returnVals(outVals)`: split the return values into the normal
prefix and the trailing error; on a non-nil trailing error pick the status
code from the `StatusCodeError` capability (default 200), unwrap
`*errorWithStatusCode`, apply the `ErrHandler` hook, and append the
`ResponseError` envelope; on nil append `nil`.  `none` models the panic of
`outVals[len(outVals)-1].Interface().(error)` when the last value is not an
error (or the list is empty). -/
def returnVals (cfg : Config) (outVals : List GoVal) : Option RVals :=
  match outVals.getLast? with
  | some (GoVal.vError lastErr) =>
    let normalVals := outVals.dropLast
    let outs := normalVals.map Out.ov
    match lastErr with
    | some e0 =>
      let httpCode : Int :=
        match statusCodeOf e0 with
        | some c => c
        | none => 200
      let e2 := applyErrHandler cfg (unwrapOnce e0)
      some ⟨httpCode, outs ++ [Out.envlp (errMsg e2) e2], normalVals, some e2⟩
    | none => some ⟨200, outs ++ [Out.onull], normalVals, none⟩
  | _ => none

/-- The `errIndex` computed by `Config.returnError`: the index of the last
return type implementing `error`, defaulting to 0. -/
def errIndexOf (ftOuts : List GoType) : Nat :=
  (ftOuts.foldl
    (fun (p : Nat × Nat) t => (if implementsError t then p.2 else p.1, p.2 + 1))
    (0, 0)).1

/-- Models `Config.returnError(ft, w, err, httpCode)`: build one zero value per
return type of the target, apply the `ErrHandler` hook, overwrite the
`errIndex` slot with the envelope, and write `httpCode` plus the list.
`none` models the panic of `errOuts[0]` when the target has no returns. -/
def returnError (cfg : Config) (ftOuts : List GoType) (err0 : GoError)
    (httpCode : Int) : Option (Int × List Out) :=
  if ftOuts.isEmpty then none
  else
    let err := applyErrHandler cfg err0
    let errOuts :=
      (ftOuts.map fun t => Out.ov (zeroVal t)).set (errIndexOf ftOuts)
        (Out.envlp (errMsg err) err)
    some (httpCode, errOuts)

/-- A Go function value as the package sees it: its reflected signature
(`ins`, `outs`) plus its behaviour.  `call` is the semantics when invoked as
the target with an argument list; `callWR` the semantics when invoked as an
injector with `(w http.ResponseWriter, r *http.Request)` — an injector's
outputs may depend on the request. -/
structure GoFunc where
  ins : List GoType
  outs : List GoType
  call : List GoVal → List GoVal
  callWR : Request → List GoVal

/-- Models `typesAssignableTo(toTypes, fromTypes)`: equal lengths and
`fromTypes[i].AssignableTo(toTypes[i])` at every position. -/
def typesAssignableTo (toTypes fromTypes : List GoType) : Bool :=
  toTypes.length == fromTypes.length &&
    (List.zip toTypes fromTypes).all fun p => assignableTo p.2 p.1

/-- Models `isError(t)` from the source. -/
def isError (t : GoType) : Bool := implementsError t

/-- Models `isInjector(ft)`: the parameter list must accept
`(http.ResponseWriter, *http.Request)`. -/
def isInjector (f : GoFunc) : Bool :=
  typesAssignableTo f.ins [GoType.tResponseWriter, GoType.tRequestPtr]

/-- Models `check(ft)`: the last return value must implement `error` (indexing
`Out(NumOut()-1)` panics when there are no returns), and no parameter or
return may be a channel. -/
def check (ins outs : List GoType) : Except String Unit :=
  match outs.getLast? with
  | none => Except.error "reflect: Out index out of range"
  | some t =>
    if ¬ isError t then
      Except.error "func\x27s last return value must be error."
    else if ins.any fun u => u == GoType.tChan then
      Except.error "func arguments can not be chan type."
    else if outs.any fun u => u == GoType.tChan then
      Except.error "func return values can not be chan type."
    else Except.ok ()

/-- Models `checkInjectorsType(ft, injectors)`: concatenate the injectors' produced
(non-trailing) output types, take the same-length prefix of the target's
parameter types, and call `typesAssignableTo(injectedTypes, argTypes)`
(note the argument order of the source); panic with a message naming both
type lists on failure. -/
def checkInjectorsType (fins fouts : List GoType) (injectors : List GoFunc) :
    Except String Unit :=
  let injectedTypes := injectors.foldr (fun inj acc => inj.outs.dropLast ++ acc) []
  let argTypes := fins.take injectedTypes.length
  let injectedTypesStr := showTypeList injectedTypes
  let argTypesStr := showTypeList argTypes
  if ¬ typesAssignableTo injectedTypes argTypes then
    Except.error (showFuncType fins fouts ++ " params type is " ++ argTypesStr
      ++ ", but injecting " ++ injectedTypesStr)
  else Except.ok ()

/-- Models `contextInjector(w, r)`: yields the request context and a nil error. -/
def contextInjector : GoFunc where
  ins := [GoType.tResponseWriter, GoType.tRequestPtr]
  outs := [GoType.tContext, GoType.tError]
  call := fun _ => [GoVal.vCtx, GoVal.vError none]
  callWR := fun _ => [GoVal.vCtx, GoVal.vError none]

/-- The data captured by the closure `Config.ToHandlerFunc` returns. -/
structure Handler where
  target : GoFunc
  injectors : List GoFunc
  firstIsAlsoInjector : Bool

/-- The `i > 0` iterations of the loop over `funcs` in
`Config.ToHandlerFunc`: each must pass `check` and be injector-shaped. -/
def collectTailInjectors : List GoFunc → Except String (List GoFunc)
  | [] => Except.ok []
  | f :: fs => do
    check f.ins f.outs
    if ¬ isInjector f then
      Except.error "injector params must be func(w http.ResponseWriter, r *http.Request) ..."
    else do
      let restInj ← collectTailInjectors fs
      Except.ok (f :: restInj)

/-- The construction-time part of `Config.ToHandlerFunc(funcs...)` (the
config plays no role until a request is served): validate each function,
collect the injectors (the first function itself when it is
injector-shaped), add the implicit `contextInjector` for a lone target whose
first parameter is a `context.Context`, and run the injector/parameter
compatibility check.  Panics are `Except.error` with the panic message. -/
def ToHandlerFunc (funcs : List GoFunc) : Except String Handler :=
  match funcs with
  | [] =>
    Except.error "pass in one or more func, from the second one is all arguments injector."
  | serverFunc :: rest => do
    check serverFunc.ins serverFunc.outs
    let firstIsAlsoInjector := isInjector serverFunc
    let headInjectors : List GoFunc := if firstIsAlsoInjector then [serverFunc] else []
    let tailInjectors ← collectTailInjectors rest
    let argsInjectors0 := headInjectors ++ tailInjectors
    let argsInjectors :=
      if rest.isEmpty &&
          (match serverFunc.ins.head? with
           | some t => implementsContext t
           | none => false) then
        argsInjectors0 ++ [contextInjector]
      else argsInjectors0
    if ¬ firstIsAlsoInjector then
      checkInjectorsType serverFunc.ins serverFunc.outs argsInjectors
    Except.ok ⟨serverFunc, argsInjectors, firstIsAlsoInjector⟩

/-- Type-directed decoding of one non-null JSON value into a freshly
allocated slot of the given (pointee) type, as `encoding/json` performs it;
a shape mismatch is a decode error. -/
def decodePlain : GoType → JVal → Except Unit GoVal
  | GoType.tString, JVal.jstr s => Except.ok (GoVal.vString s)
  | GoType.tInt, JVal.jint n => Except.ok (GoVal.vInt n)
  | GoType.tBool, JVal.jbool b => Except.ok (GoVal.vBool b)
  | GoType.tNamed n, JVal.jobjTag tag => Except.ok (GoVal.vOpaque (GoType.tNamed n) tag)
  | GoType.tIfaceEmpty, JVal.jbool b => Except.ok (GoVal.vBool b)
  | GoType.tIfaceEmpty, JVal.jint n => Except.ok (GoVal.vOpaque GoType.tIfaceEmpty (toString n))
  | GoType.tIfaceEmpty, JVal.jstr s => Except.ok (GoVal.vString s)
  | GoType.tIfaceEmpty, JVal.jobjTag tag => Except.ok (GoVal.vOpaque GoType.tIfaceEmpty tag)
  | GoType.tIfaceEmpty, JVal.jarrTag tag => Except.ok (GoVal.vOpaque GoType.tIfaceEmpty tag)
  | _, _ => Except.error ()

/-- Decoding one `params` element into the slot allocated for a parameter of
type `t` (for a pointer parameter the slot holds the pointee type).  A JSON
`null` clears the `interface{}` element of the `params` slice, leaving the
slot without a decoded value (`ok none`). -/
def decodeSlot (t : GoType) (j : JVal) : Except Unit (Option GoVal) :=
  match j with
  | JVal.jnull => Except.ok none
  | _ =>
    match t with
    | GoType.tPtr e => (decodePlain e j).map some
    | _ => (decodePlain t j).map some

/-- Elements of the JSON array beyond the allocated slots are decoded into
fresh `interface{}` values (`null` again clearing the element). -/
def genericDecode : JVal → Option GoVal
  | JVal.jnull => none
  | JVal.jbool b => some (GoVal.vBool b)
  | JVal.jint n => some (GoVal.vOpaque GoType.tIfaceEmpty (toString n))
  | JVal.jstr s => some (GoVal.vString s)
  | JVal.jobjTag tag => some (GoVal.vOpaque GoType.tIfaceEmpty tag)
  | JVal.jarrTag tag => some (GoVal.vOpaque GoType.tIfaceEmpty tag)

/-- Decoding the `params` JSON array into the slot sequence: element `i`
populates slot `i`; the resulting `params` slice is truncated or extended to
the length of the JSON array (as `encoding/json` does for slices). -/
def decodeElems : List GoType → List JVal → Except Unit (List (Option GoVal))
  | _, [] => Except.ok []
  | [], j :: js => do
    let rest ← decodeElems [] js
    Except.ok (genericDecode j :: rest)
  | t :: ts, j :: js => do
    let v ← decodeSlot t j
    let rest ← decodeElems ts js
    Except.ok (v :: rest)

/-- Models `dec.Decode(&req)` for `Req{Params: &params}`: an empty body is an EOF
error, malformed JSON an error, otherwise the `params` array is decoded
element-by-element into the slots. -/
def decodeBody (b : Body) (slotTypes : List GoType) :
    Except Unit (List (Option GoVal)) :=
  match b with
  | Body.empty => Except.error ()
  | Body.malformed => Except.error ()
  | Body.paramsArr elems => decodeElems slotTypes elems

/-- The originally allocated, zero-valued slot as the argument-assembly loop
falls back to it: for a pointer parameter `reflect.New(elem)` is a non-nil
pointer to a zero pointee; otherwise the dereferenced zero value. -/
def fallbackVal (t : GoType) : GoVal :=
  match t with
  | GoType.tPtr e => GoVal.vPtr (zeroVal e)
  | _ => zeroVal t

/-- One iteration of the argument-assembly loop: a decoded slot is passed by
reference for a pointer parameter and dereferenced otherwise; an invalid
(nulled) slot falls back to the original allocation. -/
def argOfSlot (t : GoType) (slot : Option GoVal) : GoVal :=
  match slot with
  | some u =>
    match t with
    | GoType.tPtr _ => GoVal.vPtr u
    | _ => u
  | none => fallbackVal t

/-- The `for i, p := range params` loop building `inVals` from the decoded
slots, starting at slot index `i`.  Indexing `ptrs[i+injectedCount]` (resp.
`notNilParams[i]`) out of range — which happens when the JSON array is
longer than the slot list — is a request-time panic, modelled as `none`. -/
def assembleArgs (ins : List GoType) (injectedCount : Nat) :
    List (Option GoVal) → Nat → Option (List GoVal)
  | [], _ => some []
  | slot :: restSlots, i =>
    match ins[injectedCount + i]? with
    | none => none
    | some t => do
      let restArgs ← assembleArgs ins injectedCount restSlots (i + 1)
      some (argOfSlot t slot :: restArgs)

/-- What one request produces, together with the execution trace the claims
are about: the status code written, the `results` array encoded, how many
injectors ran, whether the request body was read/decoded, and whether (and
how) the target function was invoked. -/
structure HandlerResult where
  status : Int
  results : List Out
  injectorsRun : Nat
  bodyRead : Bool
  targetCalled : Bool
  targetArgs : Option (List GoVal)
  targetOut : Option (List GoVal)
  deriving DecidableEq, Repr

/-- Models `Config.injectedParams(w, r, injectFunc, ft)`: call the injector with
the request, run its outputs through `returnVals`, and on a non-nil outcome
indicator write the error response via `returnError` (signalled by a `some`
written response, the source's `shouldReturn`). -/
def injectedParams (cfg : Config) (ftOuts : List GoType) (req : Request)
    (injectFunc : GoFunc) : Option (List GoVal × Option (Int × List Out)) :=
  match returnVals cfg (injectFunc.callWR req) with
  | none => none
  | some rv =>
    match rv.err with
    | some e =>
      match returnError cfg ftOuts e rv.httpCode with
      | none => none
      | some written => some (rv.normalVals, some written)
    | none => some (rv.normalVals, none)

/-- Either the concatenated injector outputs (and how many injectors ran),
or the short-circuit error response when some injector's outcome indicator
was non-nil. -/
inductive InjOutcome where
  | ok (vals : List GoVal) (ran : Nat)
  | shortCircuit (ran : Nat) (status : Int) (results : List Out)

/-- The `for _, injector := range argsInjectors` loop: run each injector via
`injectedParams`, stopping at the first `shouldReturn`. -/
def runInjectors (cfg : Config) (ftOuts : List GoType) (req : Request) :
    List GoFunc → Nat → List GoVal → Option InjOutcome
  | [], ran, acc => some (InjOutcome.ok acc ran)
  | inj :: restInj, ran, acc =>
    match injectedParams cfg ftOuts req inj with
    | none => none
    | some (_, some written) =>
      some (InjOutcome.shortCircuit (ran + 1) written.1 written.2)
    | some (injVals, none) =>
      runInjectors cfg ftOuts req restInj (ran + 1) (acc ++ injVals)

/-- The tail of the request path shared by the decode and no-decode
branches: the arity check (`require N params, but passed in M params`, HTTP
422) followed by `v.Call(inVals)` and `returnVals`. -/
def finishCall (cfg : Config) (h : Handler) (inVals : List GoVal) (ran : Nat)
    (bodyRead : Bool) : Option HandlerResult :=
  if inVals.length ≠ h.target.ins.length then
    match returnError cfg h.target.outs
        (GoError.basic ("require " ++ toString h.target.ins.length
          ++ " params, but passed in " ++ toString inVals.length ++ " params"))
        422 with
    | none => none
    | some written =>
      some ⟨written.1, written.2, ran, bodyRead, false, none, none⟩
  else
    match returnVals cfg (h.target.call inVals) with
    | none => none
    | some rv =>
      some ⟨rv.httpCode, rv.outs, ran, bodyRead, true, some inVals,
        some (h.target.call inVals)⟩

/-- The request-serving closure returned by `Config.ToHandlerFunc`: run the
injector chain (short-circuiting on failure); in the single-injector-as-
target mode re-encode the injector outputs directly; otherwise allocate the
parameter slots, decode the body when there is at least one slot
(`decode request params error`, HTTP 422 on failure), assemble the argument
list and finish with the arity check and the call. -/
def handleRequest (cfg : Config) (h : Handler) (req : Request) :
    Option HandlerResult :=
  match runInjectors cfg h.target.outs req h.injectors 0 [] with
  | none => none
  | some (InjOutcome.shortCircuit ran status results) =>
    some ⟨status, results, ran, false, false, none, none⟩
  | some (InjOutcome.ok injectVals ran) =>
    if h.firstIsAlsoInjector then
      match returnVals cfg (injectVals ++ [GoVal.vError none]) with
      | none => none
      | some rv => some ⟨rv.httpCode, rv.outs, ran, false, false, none, none⟩
    else
      if (h.target.ins.drop injectVals.length).isEmpty then
        finishCall cfg h injectVals ran false
      else
        match decodeBody req.body (h.target.ins.drop injectVals.length) with
        | Except.error _ =>
          match returnError cfg h.target.outs
              (GoError.basic "decode request params error") 422 with
          | none => none
          | some written =>
            some ⟨written.1, written.2, ran, true, false, none, none⟩
        | Except.ok decoded =>
          match assembleArgs h.target.ins injectVals.length decoded 0 with
          | none => none
          | some args => finishCall cfg h (injectVals ++ args) ran true

/-! ### Concrete functions, configs and requests used to instantiate the
theorems -/

/-- Example `func() (string, error)` returning a plain non-nil error. -/
def exTargetErr : GoFunc where
  ins := []
  outs := [GoType.tString, GoType.tError]
  call := fun _ => [GoVal.vString "", GoVal.vError (some (GoError.basic "bad"))]
  callWR := fun _ => []

/-- Example `func() (string, error)` returning `NewStatusCodeError(403, ...)`. -/
def exTargetCode : GoFunc where
  ins := []
  outs := [GoType.tString, GoType.tError]
  call := fun _ =>
    [GoVal.vString "", GoVal.vError (some (NewStatusCodeError 403 (GoError.basic "no")))]
  callWR := fun _ => []

/-- Example `func() error` succeeding. -/
def exTargetNil : GoFunc where
  ins := []
  outs := [GoType.tError]
  call := fun _ => [GoVal.vError none]
  callWR := fun _ => []

/-- An injector producing no values and failing with a plain error. -/
def exInjBoom : GoFunc where
  ins := [GoType.tResponseWriter, GoType.tRequestPtr]
  outs := [GoType.tError]
  call := fun _ => []
  callWR := fun _ => [GoVal.vError (some (GoError.basic "boom"))]

/-- An injector producing one int and succeeding (test 8's `cardItInjector`). -/
def exInjInt : GoFunc where
  ins := [GoType.tResponseWriter, GoType.tRequestPtr]
  outs := [GoType.tInt, GoType.tError]
  call := fun _ => [GoVal.vInt 30, GoVal.vError none]
  callWR := fun _ => [GoVal.vInt 30, GoVal.vError none]

/-- Example `func(a, b, c, d string) (string, error)` (test 3 shape, simplified). -/
def exTarget4 : GoFunc where
  ins := [GoType.tString, GoType.tString, GoType.tString, GoType.tString]
  outs := [GoType.tString, GoType.tError]
  call := fun _ => [GoVal.vString "r", GoVal.vError none]
  callWR := fun _ => []

/-- Example `func(ctx context.Context) (string, error)` (test 6). -/
def exTargetCtx : GoFunc where
  ins := [GoType.tContext]
  outs := [GoType.tString, GoType.tError]
  call := fun _ => [GoVal.vString "Done", GoVal.vError none]
  callWR := fun _ => []

/-- Example `func(add *Address) error`. -/
def exTargetPtr : GoFunc where
  ins := [GoType.tPtr (GoType.tNamed "Address")]
  outs := [GoType.tError]
  call := fun _ => [GoVal.vError none]
  callWR := fun _ => []

/-- The error-translation hook prefixing `T:` to the message. -/
def exHook : GoError → GoError := fun e => GoError.basic ("T:" ++ errMsg e)

def C1res : HandlerResult :=
  ⟨200, [Out.ov (GoVal.vString ""), Out.envlp "bad" (GoError.basic "bad")],
    0, false, true, some [],
    some [GoVal.vString "", GoVal.vError (some (GoError.basic "bad"))]⟩

def C4res : HandlerResult :=
  ⟨403, [Out.ov (GoVal.vString ""), Out.envlp "no" (GoError.basic "no")],
    0, false, true, some [],
    some [GoVal.vString "",
      GoVal.vError (some (GoError.wrapped 403 (GoError.basic "no")))]⟩

/-- The injector/parameter compatibility requirement as the spec words it
(section 4.2): "the concatenation of all injectors' produced-value types
must be assignable, position-by-position, to the same-length prefix of the
target function's parameter types"; a longer injected list than the
parameter list is a length mismatch.  This definition follows the spec's
words and is compared against the source's `checkInjectorsType`. -/
def specInjectedAssignable (fins : List GoType) (injectors : List GoFunc) : Bool :=
  let injectedTypes := injectors.foldr (fun inj acc => inj.outs.dropLast ++ acc) []
  let argTypes := fins.take injectedTypes.length
  injectedTypes.length == argTypes.length &&
    (List.zip injectedTypes argTypes).all fun p => assignableTo p.1 p.2

/-- An injector producing `(interface\x7b\x7d, error)`. -/
def exInjIface : GoFunc where
  ins := [GoType.tResponseWriter, GoType.tRequestPtr]
  outs := [GoType.tIfaceEmpty, GoType.tError]
  call := fun _ => []
  callWR := fun _ => [GoVal.vString "x", GoVal.vError none]

/-- Example `func(a int) error`. -/
def exTargetInt : GoFunc where
  ins := [GoType.tInt]
  outs := [GoType.tError]
  call := fun _ => [GoVal.vError none]
  callWR := fun _ => []

/-- The response produced when `exInjBoom` fails under the `T:`-prefixing
hook: the hook has been applied twice. -/
def C2res : HandlerResult :=
  ⟨200, [Out.envlp "T:T:boom" (GoError.basic "T:T:boom")], 1, false, false,
    none, none⟩

/-! ### Basic lemmas about the result encoder -/

theorem eq_dropLast_concat {α : Type} :
    ∀ {l : List α} {a : α}, l.getLast? = some a → l = l.dropLast ++ [a] := by
  intro l
  induction l with
  | nil => intro a h; cases h
  | cons x t ih =>
    intro a h
    match t, h with
    | [], h => cases h; rfl
    | y :: t', h =>
      have h' : (y :: t').getLast? = some a := by
        simpa [List.getLast?_cons_cons] using h
      have := ih h'
      simpa [List.dropLast_cons₂] using congrArg (x :: ·) this

theorem returnVals_concat_nil (cfg : Config) (vs : List GoVal) :
    returnVals cfg (vs ++ [GoVal.vError none]) =
      some ⟨200, vs.map Out.ov ++ [Out.onull], vs, none⟩ := by
  unfold returnVals
  simp [List.getLast?_concat, List.dropLast_concat]

theorem returnVals_concat_err (cfg : Config) (vs : List GoVal) (e : GoError) :
    returnVals cfg (vs ++ [GoVal.vError (some e)]) =
      some ⟨(statusCodeOf e).getD 200,
        vs.map Out.ov ++
          [Out.envlp (errMsg (applyErrHandler cfg (unwrapOnce e)))
            (applyErrHandler cfg (unwrapOnce e))],
        vs, some (applyErrHandler cfg (unwrapOnce e))⟩ := by
  unfold returnVals
  simp only [List.getLast?_concat, List.dropLast_concat]
  cases h : statusCodeOf e <;> simp [h]

theorem statusCodeOf_none_unwrapOnce {e : GoError} (h : statusCodeOf e = none) :
    unwrapOnce e = e := by
  cases e <;> simp_all [statusCodeOf, unwrapOnce]

theorem errIndexOf_foldl_snd :
    ∀ (l : List GoType) (p : Nat × Nat),
      (l.foldl
        (fun (q : Nat × Nat) t => (if implementsError t then q.2 else q.1, q.2 + 1))
        p).2 = p.2 + l.length := by
  intro l
  induction l with
  | nil => intro p; simp
  | cons t ts ih =>
    intro p
    simp only [List.foldl_cons, ih, List.length_cons]
    omega

theorem errIndexOf_concat_error (l : List GoType) :
    errIndexOf (l ++ [GoType.tError]) = l.length := by
  have h := errIndexOf_foldl_snd l (0, 0)
  rw [Nat.zero_add] at h
  unfold errIndexOf
  rw [List.foldl_append]
  exact h

theorem set_concat_of_length {α : Type} :
    ∀ (A : List α) (b x : α) (n : Nat), n = A.length →
      (A ++ [b]).set n x = A ++ [x] := by
  intro A
  induction A with
  | nil => intro b x n h; subst h; rfl
  | cons a t ih =>
    intro b x n h
    subst h
    simp [List.set, ih b x t.length rfl]

theorem returnError_concat_error (cfg : Config) (l : List GoType) (e : GoError)
    (c : Int) :
    returnError cfg (l ++ [GoType.tError]) e c =
      some (c, (l.map fun t => Out.ov (zeroVal t)) ++
        [Out.envlp (errMsg (applyErrHandler cfg e)) (applyErrHandler cfg e)]) := by
  have hset := set_concat_of_length (l.map fun t => Out.ov (zeroVal t))
    (Out.ov (zeroVal GoType.tError))
    (Out.envlp (errMsg (applyErrHandler cfg e)) (applyErrHandler cfg e))
    l.length (by simp)
  simp [returnError, errIndexOf_concat_error, hset]

/-! ### Lemmas about the injector loop -/

theorem runInjectors_nil (cfg : Config) (ftOuts : List GoType) (req : Request)
    (n : Nat) (acc : List GoVal) :
    runInjectors cfg ftOuts req [] n acc = some (InjOutcome.ok acc n) := rfl

theorem runInjectors_cons (cfg : Config) (ftOuts : List GoType) (req : Request)
    (inj : GoFunc) (t : List GoFunc) (n : Nat) (acc : List GoVal) :
    runInjectors cfg ftOuts req (inj :: t) n acc =
      match injectedParams cfg ftOuts req inj with
      | none => none
      | some (_, some written) =>
        some (InjOutcome.shortCircuit (n + 1) written.1 written.2)
      | some (injVals, none) =>
        runInjectors cfg ftOuts req t (n + 1) (acc ++ injVals) := rfl

theorem runInjectors_append (cfg : Config) (ftOuts : List GoType) (req : Request) :
    ∀ (pre rest : List GoFunc) (n : Nat) (acc vals : List GoVal) (m : Nat),
      runInjectors cfg ftOuts req pre n acc = some (InjOutcome.ok vals m) →
      runInjectors cfg ftOuts req (pre ++ rest) n acc =
        runInjectors cfg ftOuts req rest m vals := by
  intro pre
  induction pre with
  | nil =>
    intro rest n acc vals m h
    rw [runInjectors_nil] at h
    cases h
    rfl
  | cons inj t ih =>
    intro rest n acc vals m h
    cases hip : injectedParams cfg ftOuts req inj with
    | none => rw [runInjectors_cons, hip] at h; cases h
    | some p =>
      obtain ⟨iv, w⟩ := p
      rw [runInjectors_cons, hip] at h
      rw [List.cons_append, runInjectors_cons, hip]
      cases w with
      | some written => simp at h
      | none => exact ih rest (n + 1) (acc ++ iv) vals m h

theorem runInjectors_ok_count (cfg : Config) (ftOuts : List GoType) (req : Request) :
    ∀ (injs : List GoFunc) (n : Nat) (acc vals : List GoVal) (m : Nat),
      runInjectors cfg ftOuts req injs n acc = some (InjOutcome.ok vals m) →
      m = n + injs.length := by
  intro injs
  induction injs with
  | nil =>
    intro n acc vals m h
    rw [runInjectors_nil] at h
    cases h
    simp
  | cons inj t ih =>
    intro n acc vals m h
    cases hip : injectedParams cfg ftOuts req inj with
    | none => rw [runInjectors_cons, hip] at h; cases h
    | some p =>
      obtain ⟨iv, w⟩ := p
      rw [runInjectors_cons, hip] at h
      cases w with
      | some written => simp at h
      | none =>
        have := ih (n + 1) (acc ++ iv) vals m h
        simp only [List.length_cons]
        omega

/-! ### Lemmas about the parameter decoder and argument assembly -/

theorem decodeElems_length :
    ∀ (js : List JVal) (ts : List GoType) (ds : List (Option GoVal)),
      decodeElems ts js = Except.ok ds → ds.length = js.length := by
  intro js
  induction js with
  | nil =>
    intro ts ds h
    cases ts <;> (cases h; rfl)
  | cons j js' ih =>
    intro ts ds h
    cases ts with
    | nil =>
      unfold decodeElems at h
      cases hr : decodeElems [] js' with
      | error u => rw [hr] at h; cases h
      | ok rest =>
        rw [hr] at h
        cases h
        simp [ih [] rest hr]
    | cons t ts' =>
      unfold decodeElems at h
      cases hs : decodeSlot t j with
      | error u => rw [hs] at h; cases h
      | ok v =>
        rw [hs] at h
        cases hr : decodeElems ts' js' with
        | error u => rw [hr] at h; cases h
        | ok rest =>
          rw [hr] at h
          cases h
          simp [ih ts' rest hr]

theorem decodeElems_null_at :
    ∀ (js : List JVal) (ts : List GoType) (ds : List (Option GoVal)) (i : Nat),
      decodeElems ts js = Except.ok ds → js[i]? = some JVal.jnull →
      ds[i]? = some none := by
  intro js
  induction js with
  | nil => intro ts ds i h hj; simp at hj
  | cons j js' ih =>
    intro ts ds i h hj
    cases ts with
    | nil =>
      unfold decodeElems at h
      cases hr : decodeElems [] js' with
      | error u => rw [hr] at h; cases h
      | ok rest =>
        rw [hr] at h
        cases h
        cases i with
        | zero =>
          simp at hj
          subst hj
          simp [genericDecode]
        | succ i' =>
          simp only [List.getElem?_cons_succ] at hj ⊢
          exact ih [] rest i' hr hj
    | cons t ts' =>
      unfold decodeElems at h
      cases hs : decodeSlot t j with
      | error u => rw [hs] at h; cases h
      | ok v =>
        rw [hs] at h
        cases hr : decodeElems ts' js' with
        | error u => rw [hr] at h; cases h
        | ok rest =>
          rw [hr] at h
          cases h
          cases i with
          | zero =>
            simp at hj
            subst hj
            cases hs
            simp
          | succ i' =>
            simp only [List.getElem?_cons_succ] at hj ⊢
            exact ih ts' rest i' hr hj

theorem assembleArgs_some (ins : List GoType) (c : Nat) :
    ∀ (ds : List (Option GoVal)) (i : Nat), c + i + ds.length ≤ ins.length →
      ∃ args, assembleArgs ins c ds i = some args ∧ args.length = ds.length := by
  intro ds
  induction ds with
  | nil => intro i _; exact ⟨[], rfl, rfl⟩
  | cons s ds' ih =>
    intro i hle
    have hlt : c + i < ins.length := by
      simp only [List.length_cons] at hle
      omega
    obtain ⟨rest, hrest, hlen⟩ := ih (i + 1) (by simp only [List.length_cons] at hle; omega)
    refine ⟨argOfSlot ins[c + i] s :: rest, ?_, by simp [hlen]⟩
    unfold assembleArgs
    rw [List.getElem?_eq_getElem hlt]
    simp only [Option.bind_eq_bind]
    rw [hrest]
    rfl

theorem assembleArgs_get (ins : List GoType) (c : Nat) :
    ∀ (ds : List (Option GoVal)) (i : Nat) (args : List GoVal) (j : Nat)
      (s : Option GoVal) (t : GoType),
      assembleArgs ins c ds i = some args → ds[j]? = some s →
      ins[c + i + j]? = some t → args[j]? = some (argOfSlot t s) := by
  intro ds
  induction ds with
  | nil => intro i args j s t _ hs _; simp at hs
  | cons s0 ds' ih =>
    intro i args j s t h hs ht
    unfold assembleArgs at h
    cases hg : ins[c + i]? with
    | none => rw [hg] at h; cases h
    | some t0 =>
      rw [hg] at h
      cases hr : assembleArgs ins c ds' (i + 1) with
      | none => rw [hr] at h; cases h
      | some rest =>
        rw [hr] at h
        cases h
        cases j with
        | zero =>
          simp only [List.getElem?_cons_zero, Option.some_inj] at hs
          subst hs
          rw [Nat.add_zero] at ht
          rw [hg] at ht
          cases ht
          simp
        | succ j' =>
          simp only [List.getElem?_cons_succ] at hs ⊢
          have ht' : ins[c + (i + 1) + j']? = some t := by
            rw [show c + (i + 1) + j' = c + i + (j' + 1) by omega]
            exact ht
          exact ih (i + 1) rest j' s t hr hs ht'

/-! ### Path lemmas for the request-serving closure -/

theorem handleRequest_shortCircuit (cfg : Config) (h : Handler) (req : Request)
    (ran : Nat) (status : Int) (results : List Out)
    (hrun : runInjectors cfg h.target.outs req h.injectors 0 [] =
      some (InjOutcome.shortCircuit ran status results)) :
    handleRequest cfg h req = some ⟨status, results, ran, false, false, none, none⟩ := by
  unfold handleRequest
  rw [hrun]

theorem handleRequest_firstInjector (cfg : Config) (h : Handler) (req : Request)
    (vals : List GoVal) (ran : Nat) (rv : RVals)
    (hflag : h.firstIsAlsoInjector = true)
    (hrun : runInjectors cfg h.target.outs req h.injectors 0 [] =
      some (InjOutcome.ok vals ran))
    (hrv : returnVals cfg (vals ++ [GoVal.vError none]) = some rv) :
    handleRequest cfg h req =
      some ⟨rv.httpCode, rv.outs, ran, false, false, none, none⟩ := by
  unfold handleRequest
  rw [hrun, hflag]
  simp only [if_true]
  rw [hrv]

theorem handleRequest_noSlots (cfg : Config) (h : Handler) (req : Request)
    (vals : List GoVal) (ran : Nat)
    (hflag : h.firstIsAlsoInjector = false)
    (hrun : runInjectors cfg h.target.outs req h.injectors 0 [] =
      some (InjOutcome.ok vals ran))
    (hslots : h.target.ins.drop vals.length = []) :
    handleRequest cfg h req = finishCall cfg h vals ran false := by
  unfold handleRequest
  rw [hrun, hflag]
  simp only [Bool.false_eq_true, if_false]
  rw [hslots]
  rfl

theorem handleRequest_decode (cfg : Config) (h : Handler) (req : Request)
    (vals : List GoVal) (ran : Nat) (ds : List (Option GoVal)) (args : List GoVal)
    (hflag : h.firstIsAlsoInjector = false)
    (hrun : runInjectors cfg h.target.outs req h.injectors 0 [] =
      some (InjOutcome.ok vals ran))
    (hslots : (h.target.ins.drop vals.length).isEmpty = false)
    (hdec : decodeBody req.body (h.target.ins.drop vals.length) = Except.ok ds)
    (hasm : assembleArgs h.target.ins vals.length ds 0 = some args) :
    handleRequest cfg h req = finishCall cfg h (vals ++ args) ran true := by
  unfold handleRequest
  rw [hrun, hflag]
  simp only [Bool.false_eq_true, if_false]
  rw [hslots]
  simp only [Bool.false_eq_true, if_false]
  simp only [hdec, hasm]

theorem finishCall_arity (cfg : Config) (h : Handler) (inVals : List GoVal)
    (ran : Nat) (br : Bool) (written : Int × List Out)
    (hne : inVals.length ≠ h.target.ins.length)
    (hre : returnError cfg h.target.outs
      (GoError.basic ("require " ++ toString h.target.ins.length
        ++ " params, but passed in " ++ toString inVals.length ++ " params"))
      422 = some written) :
    finishCall cfg h inVals ran br =
      some ⟨written.1, written.2, ran, br, false, none, none⟩ := by
  unfold finishCall
  rw [if_pos hne]
  simp only [hre]

theorem finishCall_call (cfg : Config) (h : Handler) (inVals : List GoVal)
    (ran : Nat) (br : Bool) (rv : RVals)
    (heq : inVals.length = h.target.ins.length)
    (hrv : returnVals cfg (h.target.call inVals) = some rv) :
    finishCall cfg h inVals ran br =
      some ⟨rv.httpCode, rv.outs, ran, br, true, some inVals,
        some (h.target.call inVals)⟩ := by
  unfold finishCall
  rw [if_neg (by simp [heq])]
  simp only [hrv]

theorem finishCall_targetOut_inv (cfg : Config) (h : Handler) (inVals : List GoVal)
    (ran : Nat) (br : Bool) (res : HandlerResult)
    (hrun : finishCall cfg h inVals ran br = some res)
    (hout : res.targetOut.isSome) :
    res.targetOut = some (h.target.call inVals) ∧
    ∃ rv, returnVals cfg (h.target.call inVals) = some rv ∧
      res.status = rv.httpCode ∧ res.results = rv.outs ∧ res.targetCalled = true := by
  unfold finishCall at hrun
  split at hrun
  · split at hrun
    · cases hrun
    · simp only [Option.some.injEq] at hrun
      subst hrun
      simp at hout
  · split at hrun
    · cases hrun
    next rv hrv =>
      simp only [Option.some.injEq] at hrun
      subst hrun
      exact ⟨rfl, rv, hrv, rfl, rfl, rfl⟩

theorem handleRequest_targetOut_inv (cfg : Config) (h : Handler) (req : Request)
    (res : HandlerResult)
    (hrun : handleRequest cfg h req = some res)
    (hout : res.targetOut.isSome) :
    ∃ inVals, res.targetOut = some (h.target.call inVals) ∧
      ∃ rv, returnVals cfg (h.target.call inVals) = some rv ∧
        res.status = rv.httpCode ∧ res.results = rv.outs ∧
        res.targetCalled = true := by
  unfold handleRequest at hrun
  split at hrun
  · cases hrun
  · simp only [Option.some.injEq] at hrun
    subst hrun
    simp at hout
  next vals ran _ =>
    split at hrun
    · split at hrun
      · cases hrun
      · simp only [Option.some.injEq] at hrun
        subst hrun
        simp at hout
    · split at hrun
      · exact ⟨vals, finishCall_targetOut_inv cfg h vals ran false res hrun hout⟩
      · split at hrun
        · split at hrun
          · cases hrun
          · simp only [Option.some.injEq] at hrun
            subst hrun
            simp at hout
        next ds _ =>
          split at hrun
          · cases hrun
          next args _ =>
            exact ⟨vals ++ args,
              finishCall_targetOut_inv cfg h (vals ++ args) ran true res hrun hout⟩

/-! ### Construction-time lemmas -/

theorem check_ok_last_error {ins outs : List GoType}
    (h : check ins outs = Except.ok ()) :
    outs.getLast? = some GoType.tError := by
  unfold check at h
  split at h
  · cases h
  next t ho =>
    split at h
    · cases h
    next hne =>
      have ht : t = GoType.tError := by
        have : isError t = true := by
          by_contra hv
          exact hne (by simpa using hv)
        simpa [isError, implementsError] using this
      rw [ht] at ho
      exact ho

theorem ToHandlerFunc_ok_inv {funcs : List GoFunc} {h : Handler}
    (hc : ToHandlerFunc funcs = Except.ok h) :
    (∃ rest, funcs = h.target :: rest) ∧
    check h.target.ins h.target.outs = Except.ok () ∧
    h.firstIsAlsoInjector = isInjector h.target := by
  match funcs with
  | [] => cases hc
  | f :: rest =>
    unfold ToHandlerFunc at hc
    simp only [bind, Except.bind, pure, Except.pure] at hc
    split at hc
    · cases hc
    next u hchk =>
      cases u
      split at hc
      · cases hc
      next tl htl =>
        split at hc
        · split at hc
          · cases hc
          next v hcit =>
            cases v
            simp only [Except.ok.injEq] at hc
            subst hc
            exact ⟨⟨rest, rfl⟩, hchk, rfl⟩
        · simp only [Except.ok.injEq] at hc
          subst hc
          exact ⟨⟨rest, rfl⟩, hchk, rfl⟩

theorem ToHandlerFunc_ok_outs_error {funcs : List GoFunc} {h : Handler}
    (hc : ToHandlerFunc funcs = Except.ok h) :
    h.target.outs.getLast? = some GoType.tError :=
  check_ok_last_error (ToHandlerFunc_ok_inv hc).2.1

theorem isInjector_head {f : GoFunc} (hs : isInjector f = true) :
    f.ins.head? = some GoType.tResponseWriter ∨
    f.ins.head? = some GoType.tIfaceEmpty := by
  unfold isInjector typesAssignableTo at hs
  cases hins : f.ins with
  | nil => rw [hins] at hs; simp at hs
  | cons a t1 =>
    cases t1 with
    | nil => rw [hins] at hs; simp at hs
    | cons b t2 =>
      cases t2 with
      | cons c t3 => rw [hins] at hs; simp at hs
      | nil =>
        rw [hins] at hs
        simp only [List.zip, List.zipWith, List.all_cons, Bool.and_eq_true,
          List.length_cons, List.length_nil] at hs
        have ha : assignableTo GoType.tResponseWriter a = true := hs.2.1
        simp only [assignableTo, Bool.or_eq_true, beq_iff_eq] at ha
        rcases ha with ha | ha
        · left; simp [← ha]
        · right; simp [ha]

theorem ToHandlerFunc_single_injector {f : GoFunc} {h : Handler}
    (hc : ToHandlerFunc [f] = Except.ok h) (hshape : isInjector f = true) :
    h = ⟨f, [f], true⟩ := by
  unfold ToHandlerFunc at hc
  simp only [bind, Except.bind, pure, Except.pure, collectTailInjectors,
    hshape] at hc
  rcases isInjector_head hshape with hh | hh <;>
    simp only [hh, implementsContext, List.isEmpty_nil, Bool.true_and,
      beq_iff_eq, reduceCtorEq, if_false, if_true, not_true_eq_false,
      List.append_nil, Except.ok.injEq, reduceIte] at hc <;>
    (cases hchk : check f.ins f.outs with
     | error e => rw [hchk] at hc; cases hc
     | ok v =>
       rw [hchk] at hc
       simp only [Except.ok.injEq] at hc
       exact hc.symm)

/-! ### Claim C1 -/

/-- Claim C1: for every constructed handler, whenever the target function is
invoked and its trailing return value is a non-nil error without the
status-code capability, the HTTP status written is 200 and the trailing
`results` entry is the error envelope whose `error` field is the (hook-
translated, identity when no hook is configured) error's message. -/
theorem C1_plain_error_gives_200_and_envelope
    (cfg : Config) (funcs : List GoFunc) (h : Handler) (req : Request)
    (res : HandlerResult) (outVals : List GoVal) (e : GoError)
    (_hcons : ToHandlerFunc funcs = Except.ok h)
    (hrun : handleRequest cfg h req = some res)
    (hout : res.targetOut = some outVals)
    (hlast : outVals.getLast? = some (GoVal.vError (some e)))
    (hcap : statusCodeOf e = none) :
    res.status = 200 ∧
    res.results.getLast? =
      some (Out.envlp (errMsg (applyErrHandler cfg e)) (applyErrHandler cfg e)) := by
  obtain ⟨inVals, htOut, rv, hrv, hst, hres, _⟩ :=
    handleRequest_targetOut_inv cfg h req res hrun (by rw [hout]; rfl)
  rw [hout] at htOut
  have hcall : h.target.call inVals = outVals := by
    injection htOut with hx
    exact hx.symm
  rw [hcall] at hrv
  rw [eq_dropLast_concat hlast, returnVals_concat_err] at hrv
  simp only [Option.some.injEq] at hrv
  subst hrv
  refine ⟨?_, ?_⟩
  · rw [hst]
    simp [hcap]
  · rw [hres]
    simp [List.getLast?_concat, statusCodeOf_none_unwrapOnce hcap]

theorem C1_plain_error_witness :
    ToHandlerFunc [exTargetErr] = Except.ok ⟨exTargetErr, [], false⟩ ∧
    C1res.status = 200 ∧
    C1res.results.getLast? = some (Out.envlp "bad" (GoError.basic "bad")) :=
  ⟨rfl,
    C1_plain_error_gives_200_and_envelope ⟨none⟩ [exTargetErr]
      ⟨exTargetErr, [], false⟩ ⟨Body.empty⟩ C1res
      [GoVal.vString "", GoVal.vError (some (GoError.basic "bad"))]
      (GoError.basic "bad") rfl (by decide) (by decide) (by decide) rfl⟩

/-! ### Claim C4 -/

/-- Claim C4: for every constructed handler, when the target's trailing return
is a non-nil error exposing `StatusCode() = c` the HTTP status written is
exactly `c`; when the error is the wrapped helper (`NewStatusCodeError`),
the envelope's message comes from the inner error, not the wrapper. -/
theorem C4_status_code_capability
    (cfg : Config) (funcs : List GoFunc) (h : Handler) (req : Request)
    (res : HandlerResult) (outVals : List GoVal) (e : GoError) (c : Int)
    (_hcons : ToHandlerFunc funcs = Except.ok h)
    (hrun : handleRequest cfg h req = some res)
    (hout : res.targetOut = some outVals)
    (hlast : outVals.getLast? = some (GoVal.vError (some e)))
    (hcap : statusCodeOf e = some c) :
    res.status = c ∧
    res.results.getLast? =
      some (Out.envlp (errMsg (applyErrHandler cfg (unwrapOnce e)))
        (applyErrHandler cfg (unwrapOnce e))) ∧
    (∀ c' inner, e = GoError.wrapped c' inner →
      res.results.getLast? =
        some (Out.envlp (errMsg (applyErrHandler cfg inner))
          (applyErrHandler cfg inner))) := by
  obtain ⟨inVals, htOut, rv, hrv, hst, hres, _⟩ :=
    handleRequest_targetOut_inv cfg h req res hrun (by rw [hout]; rfl)
  rw [hout] at htOut
  have hcall : h.target.call inVals = outVals := by
    injection htOut with hx
    exact hx.symm
  rw [hcall] at hrv
  rw [eq_dropLast_concat hlast, returnVals_concat_err] at hrv
  simp only [Option.some.injEq] at hrv
  subst hrv
  refine ⟨?_, ?_, ?_⟩
  · rw [hst]
    simp [hcap]
  · rw [hres]
    simp [List.getLast?_concat]
  · intro c' inner he
    rw [hres]
    subst he
    simp [List.getLast?_concat, unwrapOnce]

theorem C4_status_code_witness :
    ToHandlerFunc [exTargetCode] = Except.ok ⟨exTargetCode, [], false⟩ ∧
    C4res.status = 403 ∧
    C4res.results.getLast? = some (Out.envlp "no" (GoError.basic "no")) :=
  ⟨rfl, (C4_status_code_capability ⟨none⟩ [exTargetCode]
      ⟨exTargetCode, [], false⟩ ⟨Body.empty⟩ C4res
      [GoVal.vString "",
        GoVal.vError (some (GoError.wrapped 403 (GoError.basic "no")))]
      (GoError.wrapped 403 (GoError.basic "no")) 403 rfl (by decide) (by decide)
      (by decide) rfl).1,
    ((C4_status_code_capability ⟨none⟩ [exTargetCode]
      ⟨exTargetCode, [], false⟩ ⟨Body.empty⟩ C4res
      [GoVal.vString "",
        GoVal.vError (some (GoError.wrapped 403 (GoError.basic "no")))]
      (GoError.wrapped 403 (GoError.basic "no")) 403 rfl (by decide) (by decide)
      (by decide) rfl).2.2 403 (GoError.basic "no") rfl)⟩

/-- Shared helper: the complete request outcome when the injector at
position `pre.length` is the first to fail.  Note the `ErrHandler` hook is
applied twice on this path: once inside `returnVals` and once more by
`returnError`. -/
theorem handleRequest_injectorFailure (cfg : Config) (h : Handler)
    (req : Request) (pre post : List GoFunc) (inj : GoFunc)
    (ivals : List GoVal) (ran : Nat) (e : GoError)
    (houts : h.target.outs.getLast? = some GoType.tError)
    (hsplit : h.injectors = pre ++ inj :: post)
    (hpre : runInjectors cfg h.target.outs req pre 0 [] =
      some (InjOutcome.ok ivals ran))
    (hfail : (inj.callWR req).getLast? = some (GoVal.vError (some e))) :
    handleRequest cfg h req =
      some ⟨(statusCodeOf e).getD 200,
        (h.target.outs.dropLast.map fun t => Out.ov (zeroVal t)) ++
          [Out.envlp
            (errMsg (applyErrHandler cfg (applyErrHandler cfg (unwrapOnce e))))
            (applyErrHandler cfg (applyErrHandler cfg (unwrapOnce e)))],
        ran + 1, false, false, none, none⟩ := by
  have hip : injectedParams cfg h.target.outs req inj =
      some ((inj.callWR req).dropLast,
        some ((statusCodeOf e).getD 200,
          (h.target.outs.dropLast.map fun t => Out.ov (zeroVal t)) ++
            [Out.envlp
              (errMsg (applyErrHandler cfg (applyErrHandler cfg (unwrapOnce e))))
              (applyErrHandler cfg (applyErrHandler cfg (unwrapOnce e)))])) := by
    unfold injectedParams
    rw [eq_dropLast_concat hfail]
    simp only [returnVals_concat_err, List.dropLast_concat]
    rw [eq_dropLast_concat houts]
    simp only [returnError_concat_error, List.dropLast_concat]
  have hrunInj : runInjectors cfg h.target.outs req h.injectors 0 [] =
      some (InjOutcome.shortCircuit (ran + 1) ((statusCodeOf e).getD 200)
        ((h.target.outs.dropLast.map fun t => Out.ov (zeroVal t)) ++
          [Out.envlp
            (errMsg (applyErrHandler cfg (applyErrHandler cfg (unwrapOnce e))))
            (applyErrHandler cfg (applyErrHandler cfg (unwrapOnce e)))])) := by
    rw [hsplit,
      runInjectors_append cfg h.target.outs req pre (inj :: post) 0 [] ivals ran hpre,
      runInjectors_cons, hip]
  exact handleRequest_shortCircuit cfg h req (ran + 1) _ _ hrunInj

/-! ### Claim C2 -/

/-- Claim C2 counterexample: with the `T:`-prefixing hook configured, a
failing injector's error `boom` is encoded as `T:T:boom` (the hook applied
twice), while the claim says the error field always equals the hook applied
once to the original error (`T:boom`). -/
theorem C2_hook_once_counterexample :
    ToHandlerFunc [exTargetNil, exInjBoom] =
      Except.ok ⟨exTargetNil, [exInjBoom], false⟩ ∧
    handleRequest ⟨some exHook⟩ ⟨exTargetNil, [exInjBoom], false⟩ ⟨Body.empty⟩ =
      some C2res ∧
    C2res.results.getLast? =
      some (Out.envlp "T:T:boom" (GoError.basic "T:T:boom")) ∧
    errMsg (exHook (GoError.basic "boom")) = "T:boom" ∧
    "T:T:boom" ≠ "T:boom" :=
  ⟨rfl, by decide, rfl, rfl, by decide⟩

/-- Claim C2 (amended): with a non-nil error-translation hook, the envelope's
error field equals the hook applied once to the original (unwrapped) error
for errors returned by the target function, but the hook applied twice for
a failing injector's outcome indicator (once in `returnVals` and once more
in `returnError`). -/
theorem C2_amended_hook_applications (cfg : Config) (hook : GoError → GoError)
    (hcfg : cfg.ErrHandler = some hook) :
    (∀ funcs h req res outVals e,
      ToHandlerFunc funcs = Except.ok h →
      handleRequest cfg h req = some res →
      res.targetOut = some outVals →
      outVals.getLast? = some (GoVal.vError (some e)) →
      res.results.getLast? =
        some (Out.envlp (errMsg (hook (unwrapOnce e))) (hook (unwrapOnce e)))) ∧
    (∀ funcs h req pre inj post ivals ran res e,
      ToHandlerFunc funcs = Except.ok h →
      h.injectors = pre ++ inj :: post →
      runInjectors cfg h.target.outs req pre 0 [] =
        some (InjOutcome.ok ivals ran) →
      (inj.callWR req).getLast? = some (GoVal.vError (some e)) →
      handleRequest cfg h req = some res →
      res.results.getLast? =
        some (Out.envlp (errMsg (hook (hook (unwrapOnce e))))
          (hook (hook (unwrapOnce e))))) := by
  constructor
  · intro funcs h req res outVals e _hcons hrun hout hlast
    obtain ⟨inVals, htOut, rv, hrv, _, hres, _⟩ :=
      handleRequest_targetOut_inv cfg h req res hrun (by rw [hout]; rfl)
    rw [hout] at htOut
    have hcall : h.target.call inVals = outVals := by
      injection htOut with hx
      exact hx.symm
    rw [hcall, eq_dropLast_concat hlast, returnVals_concat_err] at hrv
    simp only [Option.some.injEq] at hrv
    subst hrv
    rw [hres]
    simp [List.getLast?_concat, applyErrHandler, hcfg]
  · intro funcs h req pre inj post ivals ran res e hcons hsplit hpre hfail hrun
    have houts := ToHandlerFunc_ok_outs_error hcons
    rw [handleRequest_injectorFailure cfg h req pre post inj ivals ran e houts
      hsplit hpre hfail] at hrun
    simp only [Option.some.injEq] at hrun
    subst hrun
    simp [List.getLast?_concat, applyErrHandler, hcfg]

theorem C2_amended_witness :
    C2res.results.getLast? =
      some (Out.envlp "T:T:boom" (GoError.basic "T:T:boom")) :=
  (C2_amended_hook_applications ⟨some exHook⟩ exHook rfl).2
    [exTargetNil, exInjBoom] ⟨exTargetNil, [exInjBoom], false⟩ ⟨Body.empty⟩
    [] exInjBoom [] [] 0 C2res (GoError.basic "boom") rfl rfl rfl rfl (by decide)

/-! ### Claim C3 -/

/-- Claim C3 (code bug): the source's `checkInjectorsType` passes the two
type lists to `typesAssignableTo` in the wrong order, so it tests
parameter-to-injected assignability instead of the spec's
injected-to-parameter direction (`isInjector` uses the same helper in the
correct direction).  Concretely, for a target `func(a int) error` and an
injector producing `(interface\x7b\x7d, error)`, `interface\x7b\x7d` is not
assignable to `int`, so the claim requires a construction-time panic; the
code instead accepts the pair and construction succeeds, deferring the
failure to a request-time `reflect.Call` panic. -/
theorem C3_assignability_direction_bug :
    checkInjectorsType exTargetInt.ins exTargetInt.outs [exInjIface] =
      Except.ok () ∧
    ToHandlerFunc [exTargetInt, exInjIface] =
      Except.ok ⟨exTargetInt, [exInjIface], false⟩ ∧
    specInjectedAssignable exTargetInt.ins [exInjIface] = false ∧
    assignableTo GoType.tIfaceEmpty GoType.tInt = false ∧
    assignableTo GoType.tInt GoType.tIfaceEmpty = true :=
  ⟨rfl, rfl, by decide, by decide, by decide⟩

/-! ### Claim C5 -/

/-- Claim C5: when some injector's outcome indicator is non-nil, no later
injector runs (`injectorsRun` is the failing position plus one), the body is
never read, the target is never invoked, and the response is the error
envelope built from that indicator with its status code (defaulting to 200
without the capability). -/
theorem C5_injector_short_circuit
    (cfg : Config) (funcs : List GoFunc) (h : Handler) (req : Request)
    (pre post : List GoFunc) (inj : GoFunc) (ivals : List GoVal) (ran : Nat)
    (e : GoError)
    (hcfg : cfg.ErrHandler = none)
    (hcons : ToHandlerFunc funcs = Except.ok h)
    (hsplit : h.injectors = pre ++ inj :: post)
    (hpre : runInjectors cfg h.target.outs req pre 0 [] =
      some (InjOutcome.ok ivals ran))
    (hfail : (inj.callWR req).getLast? = some (GoVal.vError (some e))) :
    ∃ res, handleRequest cfg h req = some res ∧
      res.injectorsRun = ran + 1 ∧
      res.bodyRead = false ∧
      res.targetCalled = false ∧
      res.status = (statusCodeOf e).getD 200 ∧
      res.results.getLast? =
        some (Out.envlp (errMsg (unwrapOnce e)) (unwrapOnce e)) := by
  have houts := ToHandlerFunc_ok_outs_error hcons
  refine ⟨_, handleRequest_injectorFailure cfg h req pre post inj ivals ran e
    houts hsplit hpre hfail, rfl, rfl, rfl, rfl, ?_⟩
  simp [List.getLast?_concat, applyErrHandler, hcfg]

theorem C5_injector_short_circuit_witness :
    ∃ res, handleRequest ⟨none⟩ ⟨exTargetNil, [exInjBoom], false⟩
        ⟨Body.empty⟩ = some res ∧
      res.injectorsRun = 0 + 1 ∧
      res.bodyRead = false ∧
      res.targetCalled = false ∧
      res.status = (statusCodeOf (GoError.basic "boom")).getD 200 ∧
      res.results.getLast? =
        some (Out.envlp (errMsg (unwrapOnce (GoError.basic "boom")))
          (unwrapOnce (GoError.basic "boom"))) :=
  C5_injector_short_circuit ⟨none⟩ [exTargetNil, exInjBoom]
    ⟨exTargetNil, [exInjBoom], false⟩ ⟨Body.empty⟩ [] [] exInjBoom [] 0
    (GoError.basic "boom") rfl rfl rfl rfl rfl

/-! ### Claim C6 -/

/-- Claim C6: a handler built from a single injector-shaped function skips
parameter decoding entirely and responds with that function's produced
values followed by `null`, whatever the request body (including empty). -/
theorem C6_single_injector_mode (cfg : Config) (f : GoFunc) (h : Handler)
    (req : Request) (vs : List GoVal)
    (hcons : ToHandlerFunc [f] = Except.ok h)
    (hshape : isInjector f = true)
    (hout : f.callWR req = vs ++ [GoVal.vError none]) :
    handleRequest cfg h req =
      some ⟨200, vs.map Out.ov ++ [Out.onull], 1, false, false, none, none⟩ := by
  have hh := ToHandlerFunc_single_injector hcons hshape
  subst hh
  have hip : injectedParams cfg f.outs req f = some (vs, none) := by
    unfold injectedParams
    rw [hout]
    simp only [returnVals_concat_nil]
  have hrunInj : runInjectors cfg f.outs req [f] 0 [] =
      some (InjOutcome.ok vs 1) := by
    rw [runInjectors_cons, hip]
    simp [runInjectors_nil]
  exact handleRequest_firstInjector cfg ⟨f, [f], true⟩ req vs 1
    ⟨200, vs.map Out.ov ++ [Out.onull], vs, none⟩ rfl hrunInj
    (returnVals_concat_nil cfg vs)

theorem C6_single_injector_witness :
    handleRequest ⟨none⟩ ⟨exInjInt, [exInjInt], true⟩ ⟨Body.empty⟩ =
      some ⟨200, [Out.ov (GoVal.vInt 30), Out.onull], 1, false, false,
        none, none⟩ :=
  C6_single_injector_mode ⟨none⟩ exInjInt ⟨exInjInt, [exInjInt], true⟩
    ⟨Body.empty⟩ [GoVal.vInt 30] rfl rfl rfl

/-! ### Claim C7 -/

/-- Claim C7: when the decoded `params` array supplies fewer arguments than
the target's parameter count after injection, the handler responds with
HTTP 422 and an error envelope naming the required and supplied counts, and
never invokes the target. -/
theorem C7_arity_error (cfg : Config) (funcs : List GoFunc) (h : Handler)
    (req : Request) (elems : List JVal) (ivals : List GoVal) (ran : Nat)
    (ds : List (Option GoVal))
    (hcfg : cfg.ErrHandler = none)
    (hcons : ToHandlerFunc funcs = Except.ok h)
    (hflag : h.firstIsAlsoInjector = false)
    (hinj : runInjectors cfg h.target.outs req h.injectors 0 [] =
      some (InjOutcome.ok ivals ran))
    (hbody : req.body = Body.paramsArr elems)
    (hdec : decodeElems (h.target.ins.drop ivals.length) elems = Except.ok ds)
    (hlt : ivals.length + elems.length < h.target.ins.length) :
    ∃ res, handleRequest cfg h req = some res ∧
      res.targetCalled = false ∧
      res.status = 422 ∧
      res.results.getLast? = some (Out.envlp
        ("require " ++ toString h.target.ins.length ++ " params, but passed in "
          ++ toString (ivals.length + elems.length) ++ " params")
        (GoError.basic
          ("require " ++ toString h.target.ins.length ++ " params, but passed in "
            ++ toString (ivals.length + elems.length) ++ " params"))) := by
  have hdsl : ds.length = elems.length := decodeElems_length elems _ ds hdec
  have hslots : (h.target.ins.drop ivals.length).isEmpty = false := by
    rcases hd : h.target.ins.drop ivals.length with _ | ⟨a, tl⟩
    · have := congrArg List.length hd
      simp [List.length_drop] at this
      omega
    · rfl
  obtain ⟨args, hasm, hargsLen⟩ :=
    assembleArgs_some h.target.ins ivals.length ds 0 (by rw [hdsl]; omega)
  have hmain := handleRequest_decode cfg h req ivals ran ds args hflag hinj
    hslots (by rw [hbody]; exact hdec) hasm
  have hlen2 : (ivals ++ args).length = ivals.length + elems.length := by
    simp [List.length_append, hargsLen, hdsl]
  have hne : (ivals ++ args).length ≠ h.target.ins.length := by omega
  obtain ⟨D, hD⟩ : ∃ D, h.target.outs = D ++ [GoType.tError] :=
    ⟨_, eq_dropLast_concat (ToHandlerFunc_ok_outs_error hcons)⟩
  have hre := returnError_concat_error cfg D
    (GoError.basic ("require " ++ toString h.target.ins.length
      ++ " params, but passed in " ++ toString (ivals ++ args).length
      ++ " params")) 422
  rw [← hD] at hre
  have hfc := finishCall_arity cfg h (ivals ++ args) ran true _ hne hre
  refine ⟨_, by rw [hmain, hfc], rfl, rfl, ?_⟩
  simp [List.getLast?_concat, applyErrHandler, hcfg, hlen2, errMsg]

theorem C7_arity_error_witness :
    ∃ res, handleRequest ⟨none⟩ ⟨exTarget4, [], false⟩
        ⟨Body.paramsArr [JVal.jstr "Felix"]⟩ = some res ∧
      res.targetCalled = false ∧
      res.status = 422 ∧
      res.results.getLast? = some (Out.envlp
        "require 4 params, but passed in 1 params"
        (GoError.basic "require 4 params, but passed in 1 params")) :=
  C7_arity_error ⟨none⟩ [exTarget4] ⟨exTarget4, [], false⟩
    ⟨Body.paramsArr [JVal.jstr "Felix"]⟩ [JVal.jstr "Felix"] [] 0
    [some (GoVal.vString "Felix")] rfl rfl rfl rfl rfl rfl (by decide)

/-! ### Claim C8 -/

/-- Claim C8: when every target parameter is supplied by injectors (or there
are none), the request body is never read or decoded and the request —
empty or absent body included — proceeds to the invocation, succeeding with
status 200 when the target's outcome indicator is nil. -/
theorem C8_all_injected_skips_body (cfg : Config) (funcs : List GoFunc)
    (h : Handler) (req : Request) (ivals : List GoVal) (ran : Nat)
    (x : Option GoError)
    (_hcons : ToHandlerFunc funcs = Except.ok h)
    (hflag : h.firstIsAlsoInjector = false)
    (hinj : runInjectors cfg h.target.outs req h.injectors 0 [] =
      some (InjOutcome.ok ivals ran))
    (hcount : ivals.length = h.target.ins.length)
    (hconf : (h.target.call ivals).getLast? = some (GoVal.vError x)) :
    ∃ res, handleRequest cfg h req = some res ∧
      res.bodyRead = false ∧
      res.targetCalled = true ∧
      (x = none → res.status = 200) := by
  have hslots : h.target.ins.drop ivals.length = [] := by
    rw [hcount, List.drop_length]
  have hmain := handleRequest_noSlots cfg h req ivals ran hflag hinj hslots
  obtain ⟨rv, hrv, hx⟩ : ∃ rv, returnVals cfg (h.target.call ivals) = some rv ∧
      (x = none → rv.httpCode = 200) := by
    cases x with
    | none =>
      have hrv0 : returnVals cfg (h.target.call ivals) =
          some ⟨200,
            ((h.target.call ivals).dropLast.map Out.ov) ++ [Out.onull],
            (h.target.call ivals).dropLast, none⟩ := by
        conv_lhs => rw [eq_dropLast_concat hconf]
        exact returnVals_concat_nil cfg _
      exact ⟨_, hrv0, fun _ => rfl⟩
    | some e =>
      have hrv0 : returnVals cfg (h.target.call ivals) =
          some ⟨(statusCodeOf e).getD 200,
            ((h.target.call ivals).dropLast.map Out.ov) ++
              [Out.envlp (errMsg (applyErrHandler cfg (unwrapOnce e)))
                (applyErrHandler cfg (unwrapOnce e))],
            (h.target.call ivals).dropLast,
            some (applyErrHandler cfg (unwrapOnce e))⟩ := by
        conv_lhs => rw [eq_dropLast_concat hconf]
        exact returnVals_concat_err cfg _ e
      exact ⟨_, hrv0, fun hx => by cases hx⟩
  have hfc := finishCall_call cfg h ivals ran false rv hcount hrv
  exact ⟨_, by rw [hmain, hfc], rfl, rfl, hx⟩

theorem C8_all_injected_witness :
    ∃ res, handleRequest ⟨none⟩ ⟨exTargetCtx, [contextInjector], false⟩
        ⟨Body.empty⟩ = some res ∧
      res.bodyRead = false ∧
      res.targetCalled = true ∧
      ((none : Option GoError) = none → res.status = 200) :=
  C8_all_injected_skips_body ⟨none⟩ [exTargetCtx]
    ⟨exTargetCtx, [contextInjector], false⟩ ⟨Body.empty⟩ [GoVal.vCtx] 1 none
    rfl rfl rfl rfl rfl

/-! ### Claim C9 -/

/-- Claim C9: a JSON `null` element of the `params` array makes the
corresponding argument fall back to the originally allocated zero-valued
slot, so the target is called with a valid value in that position — a
pointer-typed parameter receives a non-nil pointer to a zero value, never a
nil pointer. -/
theorem C9_null_param_falls_back (cfg : Config) (funcs : List GoFunc)
    (h : Handler) (req : Request) (elems : List JVal)
    (ivals args : List GoVal) (ran : Nat) (ds : List (Option GoVal))
    (i : Nat) (t : GoType) (x : Option GoError)
    (_hcons : ToHandlerFunc funcs = Except.ok h)
    (hflag : h.firstIsAlsoInjector = false)
    (hinj : runInjectors cfg h.target.outs req h.injectors 0 [] =
      some (InjOutcome.ok ivals ran))
    (hbody : req.body = Body.paramsArr elems)
    (hdec : decodeElems (h.target.ins.drop ivals.length) elems = Except.ok ds)
    (hnull : elems[i]? = some JVal.jnull)
    (ht : h.target.ins[ivals.length + i]? = some t)
    (hasm : assembleArgs h.target.ins ivals.length ds 0 = some args)
    (hlen : (ivals ++ args).length = h.target.ins.length)
    (hconf : (h.target.call (ivals ++ args)).getLast? = some (GoVal.vError x)) :
    ∃ res, handleRequest cfg h req = some res ∧
      res.targetCalled = true ∧
      res.targetArgs = some (ivals ++ args) ∧
      (ivals ++ args)[ivals.length + i]? = some (fallbackVal t) ∧
      (∀ e, t = GoType.tPtr e →
        fallbackVal t = GoVal.vPtr (zeroVal e) ∧
        GoVal.vPtr (zeroVal e) ≠ GoVal.vPtrNil) := by
  have hidx : ivals.length + i < h.target.ins.length := by
    by_contra hcon
    rw [List.getElem?_eq_none (by omega)] at ht
    cases ht
  have hslots : (h.target.ins.drop ivals.length).isEmpty = false := by
    rcases hd : h.target.ins.drop ivals.length with _ | ⟨a, tl⟩
    · have := congrArg List.length hd
      simp [List.length_drop] at this
      omega
    · rfl
  have hmain := handleRequest_decode cfg h req ivals ran ds args hflag hinj
    hslots (by rw [hbody]; exact hdec) hasm
  obtain ⟨rv, hrv⟩ : ∃ rv, returnVals cfg (h.target.call (ivals ++ args)) =
      some rv := by
    cases x with
    | none =>
      have hrv0 : returnVals cfg (h.target.call (ivals ++ args)) =
          some ⟨200,
            ((h.target.call (ivals ++ args)).dropLast.map Out.ov) ++ [Out.onull],
            (h.target.call (ivals ++ args)).dropLast, none⟩ := by
        conv_lhs => rw [eq_dropLast_concat hconf]
        exact returnVals_concat_nil cfg _
      exact ⟨_, hrv0⟩
    | some e =>
      have hrv0 : returnVals cfg (h.target.call (ivals ++ args)) =
          some ⟨(statusCodeOf e).getD 200,
            ((h.target.call (ivals ++ args)).dropLast.map Out.ov) ++
              [Out.envlp (errMsg (applyErrHandler cfg (unwrapOnce e)))
                (applyErrHandler cfg (unwrapOnce e))],
            (h.target.call (ivals ++ args)).dropLast,
            some (applyErrHandler cfg (unwrapOnce e))⟩ := by
        conv_lhs => rw [eq_dropLast_concat hconf]
        exact returnVals_concat_err cfg _ e
      exact ⟨_, hrv0⟩
  have hfc := finishCall_call cfg h (ivals ++ args) ran true rv hlen hrv
  have hds : ds[i]? = some none := decodeElems_null_at elems _ ds i hdec hnull
  have hargi : args[i]? = some (argOfSlot t none) :=
    assembleArgs_get h.target.ins ivals.length ds 0 args i none t hasm hds
      (by simpa using ht)
  have hentry : (ivals ++ args)[ivals.length + i]? = some (fallbackVal t) := by
    rw [List.getElem?_append_right (by omega)]
    simpa [argOfSlot] using hargi
  refine ⟨_, by rw [hmain, hfc], rfl, rfl, hentry, ?_⟩
  intro e hte
  subst hte
  exact ⟨rfl, by simp⟩

theorem C9_null_param_witness :
    ∃ res, handleRequest ⟨none⟩ ⟨exTargetPtr, [], false⟩
        ⟨Body.paramsArr [JVal.jnull]⟩ = some res ∧
      res.targetCalled = true ∧
      res.targetArgs =
        some ([] ++ [GoVal.vPtr (GoVal.vOpaque (GoType.tNamed "Address") "zero")]) ∧
      ([] ++ [GoVal.vPtr (GoVal.vOpaque (GoType.tNamed "Address") "zero")])[0 + 0]? =
        some (fallbackVal (GoType.tPtr (GoType.tNamed "Address"))) ∧
      (∀ e, GoType.tPtr (GoType.tNamed "Address") = GoType.tPtr e →
        fallbackVal (GoType.tPtr (GoType.tNamed "Address")) =
          GoVal.vPtr (zeroVal e) ∧
        GoVal.vPtr (zeroVal e) ≠ GoVal.vPtrNil) :=
  C9_null_param_falls_back ⟨none⟩ [exTargetPtr] ⟨exTargetPtr, [], false⟩
    ⟨Body.paramsArr [JVal.jnull]⟩ [JVal.jnull] []
    [GoVal.vPtr (GoVal.vOpaque (GoType.tNamed "Address") "zero")] 0 [none]
    0 (GoType.tPtr (GoType.tNamed "Address")) none
    rfl rfl rfl rfl rfl (by decide) (by decide) rfl rfl rfl

/-! ### Claim C10 -/

/-- Claim C10: calling the constructor with zero functions panics immediately
with a message telling the caller to pass one or more functions; no handler
is produced. -/
theorem C10_empty_funcs_panics :
    ToHandlerFunc [] = Except.error
      "pass in one or more func, from the second one is all arguments injector." :=
  rfl

end JsonHandlerFunc
